import Mathlib

/-!
Verification of the ChatTool ACME-based SSL certificate issuance/renewal
engine (DNS-01 challenges), as documented in the repository's docs
(`docs/dns.md`, `skills/cert-manager/SKILL.md`, the tencent_dns README and
the configuration/server guides).  The Python implementation
(`chattool/tools/cert/cert_updater.py` and the cert server) is not part of
the provided sources, so the engine's data model and operations are
modelled from the specification and settled against that model.
-/

set_option maxRecDepth 4096

/-- Error taxonomy of the certificate engine.
Modelled from the spec: section 7 lists `ACMEProtocolError` (type, detail,
status), `ProviderError`, `ValidationTimeoutError`, `CSRMismatchError`,
`UnsupportedChallengeError`, `SigningError`; the engine additionally
reports which domain's authorization failed and a cancellation. -/
inductive CertError where
  | acmeProtocol (ptype : String) (pdetail : String) (status : Nat)
  | provider (message : String)
  | validationTimeout (domain : String)
  | validationFailed (domain : String)
  | csrMismatch
  | unsupportedChallenge (domain : String)
  | signingError
  | cancelledRun
  | retriesExhausted
  | hardCapExceeded
  | networkError
  deriving DecidableEq, Repr

/-- Observable side effects of one issuance run.
Modelled from the spec: the engine's only external actions are DNS TXT
record creation/deletion through the DNS Provider capability, HTTP calls
to the ACME CA, local file writes/renames in the certificate store, and —
for the self-containment claim — the (never exercised) possibility of
executing an external binary.  File paths are segment lists. -/
inductive Effect where
  | addTXT (fqdn : String) (value : String)
  | delTXT (fqdn : String) (value : String)
  | acmeHTTP (url : String)
  | writeFile (path : List String) (content : String)
  | renameFile (src : List String) (dst : List String)
  | execBinary (cmd : String)
  deriving DecidableEq, Repr

/- ### SHA-256 over byte lists (bytes and 32-bit words as `Nat`) -/

/-- Truncate to a 32-bit word. -/
def w32 (n : Nat) : Nat := n % 4294967296

/-- Rotate a 32-bit word right by `k` positions. -/
def rotr (k x : Nat) : Nat := w32 (x >>> k ||| x <<< (32 - k))

/-- SHA-256 small sigma 0. -/
def ssig0 (x : Nat) : Nat := rotr 7 x ^^^ rotr 18 x ^^^ (x >>> 3)

/-- SHA-256 small sigma 1. -/
def ssig1 (x : Nat) : Nat := rotr 17 x ^^^ rotr 19 x ^^^ (x >>> 10)

/-- SHA-256 big sigma 0. -/
def bsig0 (x : Nat) : Nat := rotr 2 x ^^^ rotr 13 x ^^^ rotr 22 x

/-- SHA-256 big sigma 1. -/
def bsig1 (x : Nat) : Nat := rotr 6 x ^^^ rotr 11 x ^^^ rotr 25 x

/-- SHA-256 choice function. -/
def chf (e f g : Nat) : Nat := (e &&& f) ^^^ ((e ^^^ 4294967295) &&& g)

/-- SHA-256 majority function. -/
def majf (a b c : Nat) : Nat := (a &&& b) ^^^ (a &&& c) ^^^ (b &&& c)

/-- SHA-256 round constants. -/
def shaK : List Nat :=
  [1116352408, 1899447441, 3049323471, 3921009573, 961987163,
   1508970993, 2453635748, 2870763221, 3624381080, 310598401,
   607225278, 1426881987, 1925078388, 2162078206, 2614888103,
   3248222580, 3835390401, 4022224774, 264347078, 604807628,
   770255983, 1249150122, 1555081692, 1996064986, 2554220882,
   2821834349, 2952996808, 3210313671, 3336571891, 3584528711,
   113926993, 338241895, 666307205, 773529912, 1294757372,
   1396182291, 1695183700, 1986661051, 2177026350, 2456956037,
   2730485921, 2820302411, 3259730800, 3345764771, 3516065817,
   3600352804, 4094571909, 275423344, 430227734, 506948616,
   659060556, 883997877, 958139571, 1322822218, 1537002063,
   1747873779, 1955562222, 2024104815, 2227730452, 2361852424,
   2428436474, 2756734187, 3204031479, 3329325298]

/-- SHA-256 initial hash value. -/
def shaH0 : List Nat :=
  [1779033703, 3144134277, 1013904242, 2773480762,
   1359893119, 2600822924, 528734635, 1541459225]

/-- One step of message-schedule extension; the accumulated schedule is
kept newest-first. -/
def extendStep (wrev : List Nat) : Nat :=
  w32 (ssig1 (wrev.getD 1 0) + wrev.getD 6 0 + ssig0 (wrev.getD 14 0) +
       wrev.getD 15 0)

/-- Extend the (reversed) message schedule by `n` further words. -/
def shaExtend : Nat → List Nat → List Nat
  | 0, wrev => wrev
  | n + 1, wrev => shaExtend n (extendStep wrev :: wrev)

/-- Big-endian 32-bit words from a byte list. -/
def bytesToWords : List Nat → List Nat
  | b0 :: b1 :: b2 :: b3 :: rest =>
      (b0 * 16777216 + b1 * 65536 + b2 * 256 + b3) :: bytesToWords rest
  | _ => []

/-- One SHA-256 compression round. -/
def roundFn (st : List Nat) (k : Nat) (w : Nat) : List Nat :=
  let a := st.getD 0 0
  let b := st.getD 1 0
  let c := st.getD 2 0
  let d := st.getD 3 0
  let e := st.getD 4 0
  let f := st.getD 5 0
  let g := st.getD 6 0
  let h := st.getD 7 0
  let t1 := w32 (h + bsig1 e + chf e f g + k + w)
  let t2 := w32 (bsig0 a + majf a b c)
  [w32 (t1 + t2), a, b, c, w32 (d + t1), e, f, g]

/-- Compress one 64-byte block into the running hash state. -/
def compressBlock (h8 : List Nat) (block : List Nat) : List Nat :=
  let w16 := bytesToWords block
  let ws := (shaExtend 48 w16.reverse).reverse
  let st := (shaK.zip ws).foldl (fun st kw => roundFn st kw.1 kw.2) h8
  (h8.zip st).map (fun p => w32 (p.1 + p.2))

/-- Big-endian encoding of a natural number on `n` bytes. -/
def natToBytesBE : Nat → Nat → List Nat
  | 0, _ => []
  | n + 1, v => natToBytesBE n (v / 256) ++ [v % 256]

/-- SHA-256 padding: append `0x80`, zero bytes to 56 mod 64, then the
64-bit big-endian bit length. -/
def sha256pad (ms : List Nat) : List Nat :=
  let L := ms.length
  let r := (L + 1) % 64
  let k := if r ≤ 56 then 56 - r else 120 - r
  ms ++ [128] ++ List.replicate k 0 ++ natToBytesBE 8 (L * 8)

/-- Split a byte list into `n` blocks of 64 bytes. -/
def splitBlocks : Nat → List Nat → List (List Nat)
  | 0, _ => []
  | n + 1, l => l.take 64 :: splitBlocks n (l.drop 64)

/-- Big-endian bytes of a 32-bit word list. -/
def wordsToBytes : List Nat → List Nat
  | [] => []
  | w :: rest =>
      [w / 16777216 % 256, w / 65536 % 256, w / 256 % 256, w % 256] ++
      wordsToBytes rest

/-- SHA-256 of a byte list, as 32 bytes. -/
def sha256 (ms : List Nat) : List Nat :=
  let padded := sha256pad ms
  let blocks := splitBlocks (padded.length / 64) padded
  wordsToBytes (blocks.foldl compressBlock shaH0)

/- ### base64url (unpadded), and bytes of ASCII strings -/

/-- The base64url alphabet. -/
def b64alphabet : List Char :=
  "ABCDEFGHIJKLMNOPQRSTUVWXYZabcdefghijklmnopqrstuvwxyz0123456789-_".data

/-- Character for a 6-bit group. -/
def b64c (n : Nat) : Char := b64alphabet.getD n 'A'

/-- base64url characters of a byte list (no padding, RFC 7515 style). -/
def b64urlChars : List Nat → List Char
  | [] => []
  | [a] => [b64c (a >>> 2), b64c ((a &&& 3) <<< 4)]
  | [a, b] =>
      [b64c (a >>> 2), b64c (((a &&& 3) <<< 4) ||| (b >>> 4)),
       b64c ((b &&& 15) <<< 2)]
  | a :: b :: c :: rest =>
      b64c (a >>> 2) :: b64c (((a &&& 3) <<< 4) ||| (b >>> 4)) ::
      b64c (((b &&& 15) <<< 2) ||| (c >>> 6)) :: b64c (c &&& 63) ::
      b64urlChars rest

/-- base64url encoding of a byte list as a string. -/
def b64url (bs : List Nat) : String := String.mk (b64urlChars bs)

/-- Byte list of an ASCII string (tokens, thumbprints and key
authorizations in ACME are ASCII). -/
def strBytes (s : String) : List Nat := s.data.map Char.toNat

/- ### DNS-01 key authorization and TXT digest -/

/-- Modelled from the spec: `keyAuthorization = token + "." +
base64url(SHA-256(jwkThumbprint))` (data model, Challenge); the Python
engine (`cert_updater.py`) is not among the provided sources. -/
def keyAuthorization (token thumbprint : String) : String :=
  token ++ "." ++ b64url (sha256 (strBytes thumbprint))

/-- Modelled from the spec: the DNS TXT value is
`base64url(SHA-256(keyAuthorization))`. -/
def txtValue (token thumbprint : String) : String :=
  b64url (sha256 (strBytes (keyAuthorization token thumbprint)))

/-- FQDN of the DNS-01 challenge record for a domain. -/
def challengeFqdn (domain : String) : String := "_acme-challenge." ++ domain

/- ### Local file system and DNS provider state, as interpreted traces -/

/-- A file system: finitely many paths (segment lists) with contents. -/
abbrev FS : Type := List (List String × String)

/-- Content stored at a path. -/
def fsLookup (fs : FS) (p : List String) : Option String :=
  (fs.find? (fun e => e.1 == p)).map (fun e => e.2)

/-- Write (create or overwrite) a path. -/
def fsSet (fs : FS) (p : List String) (c : String) : FS :=
  (p, c) :: fs.filter (fun e => e.1 != p)

/-- Remove a path. -/
def fsErase (fs : FS) (p : List String) : FS :=
  fs.filter (fun e => e.1 != p)

/-- Atomic rename: move the content of `src` to `dst` (no-op when `src`
is absent). -/
def fsRename (fs : FS) (src dst : List String) : FS :=
  match fsLookup fs src with
  | some c => fsSet (fsErase fs src) dst c
  | none => fs

/-- Interpret the file-manipulating effects of a trace. -/
def applyFS : List Effect → FS → FS
  | [], fs => fs
  | .writeFile p c :: rest, fs => applyFS rest (fsSet fs p c)
  | .renameFile s d :: rest, fs => applyFS rest (fsRename fs s d)
  | _ :: rest, fs => applyFS rest fs

/-- DNS provider state: the set of live TXT records (fqdn, value). -/
abbrev DNSState : Type := List (String × String)

/-- Interpret the DNS effects of a trace against provider state. -/
def applyDNS : List Effect → DNSState → DNSState
  | [], s => s
  | .addTXT f v :: rest, s => applyDNS rest ((f, v) :: s)
  | .delTXT f v :: rest, s => applyDNS rest (s.filter (fun r => r != (f, v)))
  | _ :: rest, s => applyDNS rest s

/- ### Certificate bundle and store -/

/-- Concatenation of a list of strings (used for PEM blocks). -/
def concatAll : List String → String
  | [] => ""
  | s :: rest => s ++ concatAll rest

/-- Modelled from the spec: `CertificateBundle` with the split PEM
artifacts; `leafSANs` records the SAN set of the parsed leaf
certificate. -/
structure CertificateBundle where
  domains : List String
  leafPEM : String
  chainPEM : String
  fullchainPEM : String
  privateKeyPEM : String
  leafSANs : List String
  notBefore : Nat
  notAfter : Nat
  deriving DecidableEq, Repr

/-- Primary domain of a request: the first domain in the list. -/
def primaryDomain (domains : List String) : String := domains.headD ""

/-- The four files of the certificate store, with their contents. -/
def certFiles (b : CertificateBundle) : List (String × String) :=
  [("cert.pem", b.leafPEM), ("chain.pem", b.chainPEM),
   ("fullchain.pem", b.fullchainPEM), ("privkey.pem", b.privateKeyPEM)]

/-- Atomic write of one file: write a temporary file, then rename it over
the final name. -/
def writeAtomic (dir : List String) (name content : String) : List Effect :=
  [.writeFile (dir ++ [name ++ ".tmp"]) content,
   .renameFile (dir ++ [name ++ ".tmp"]) (dir ++ [name])]

/-- Modelled from the spec: `save(bundle, baseDir)` writes `cert.pem`,
`chain.pem`, `fullchain.pem`, `privkey.pem` under
`baseDir/<primary-domain>/`, each atomically (temp file + rename); the
Python store is not among the provided sources. -/
def saveBundle (b : CertificateBundle) (baseDir : String) : List Effect :=
  ((certFiles b).map
    (fun nc => writeAtomic [baseDir, primaryDomain b.domains] nc.1 nc.2)).flatten

/- ### The issuance run -/

/-- Terminal outcome the CA reports for one authorization, including a
cancellation arriving mid-poll. -/
inductive AuthOutcome where
  | authValid
  | authInvalid
  | authTimeout
  | cancelledMidPoll
  deriving DecidableEq, Repr

/-- Environment of one issuance run: per-domain authorization outcomes
and challenge tokens, the account JWK thumbprint, and the CA's reply to
the certificate download (PEM blocks). -/
structure RunEnv where
  outcomes : List (String × AuthOutcome)
  tokens : List (String × String)
  thumbprint : String
  caChain : List String
  privKeyPEM : String
  notBefore : Nat
  notAfter : Nat
  deriving DecidableEq, Repr

/-- Terminal state of a domain's authorization in this run. -/
def outcomeOf (env : RunEnv) (d : String) : AuthOutcome :=
  (env.outcomes.lookup d).getD .authTimeout

/-- Challenge token the CA issued for a domain. -/
def tokenOf (env : RunEnv) (d : String) : String :=
  (env.tokens.lookup d).getD ""

/-- TXT records published by the run: one per requested domain. -/
def publishEffects (env : RunEnv) (domains : List String) : List Effect :=
  domains.map
    (fun d => .addTXT (challengeFqdn d) (txtValue (tokenOf env d) env.thumbprint))

/-- Withdrawal of every record the run published (cleanup). -/
def withdrawEffects (env : RunEnv) (domains : List String) : List Effect :=
  domains.map
    (fun d => .delTXT (challengeFqdn d) (txtValue (tokenOf env d) env.thumbprint))

/-- The TXT records a run creates, in publish order. -/
def challengeRecords (env : RunEnv) (domains : List String) : DNSState :=
  domains.map (fun d => (challengeFqdn d, txtValue (tokenOf env d) env.thumbprint))

/-- First domain whose authorization did not terminate `valid`. -/
def firstFailure (env : RunEnv) (domains : List String) : Option String :=
  domains.find? (fun d => outcomeOf env d != AuthOutcome.authValid)

/-- The typed error reported for a failed domain. -/
def failureError (env : RunEnv) (d : String) : CertError :=
  match outcomeOf env d with
  | .authInvalid => .validationFailed d
  | .authTimeout => .validationTimeout d
  | .cancelledMidPoll => .cancelledRun
  | .authValid => .signingError

/-- Modelled from the spec: the single entry point
`issueOrRenew(domains, email, provider, certDir, staging)`; the Python
implementation (`chattool/tools/cert/cert_updater.py`) is not among the
provided sources.  The run publishes one `_acme-challenge` TXT record per
domain, drives each authorization to a terminal state, always withdraws
every record it created (on success, failure and cancellation alike), and
on success splits the downloaded PEM blocks (first block = leaf, rest =
chain, leaf+chain = fullchain) and saves four files atomically under
`certDir/<primary-domain>/`.  Returns the typed result together with the
run's effect trace. -/
def issueOrRenew (domains : List String) (certDir : String) (env : RunEnv) :
    Except CertError CertificateBundle × List Effect :=
  let pub := publishEffects env domains
  let wd := withdrawEffects env domains
  match firstFailure env domains with
  | some d => (.error (failureError env d), pub ++ wd)
  | none =>
      match env.caChain with
      | [] =>
          (.error (.acmeProtocol "urn:ietf:params:acme:error:serverInternal"
             "empty certificate chain" 500), pub ++ wd)
      | leaf :: rest =>
          let bundle : CertificateBundle :=
            { domains := domains,
              leafPEM := leaf,
              chainPEM := concatAll rest,
              fullchainPEM := concatAll (leaf :: rest),
              privateKeyPEM := env.privKeyPEM,
              leafSANs := domains,
              notBefore := env.notBefore,
              notAfter := env.notAfter }
          (.ok bundle, pub ++ wd ++ saveBundle bundle certDir)

/-- Modelled from the spec and the repository docs
(`skills/cert-manager/SKILL.md`, the configuration guide): the
caller-facing Python entry point `SSLCertUpdater.run_once()` reports a
bare boolean success flag (`success = await updater.run_once()`). -/
def run_once (domains : List String) (certDir : String) (env : RunEnv) : Bool :=
  match (issueOrRenew domains certDir env).1 with
  | .ok _ => true
  | .error _ => false

/- ### HTTP retry policy of the Nonce Client (badNonce handling) -/

/-- One reply of the ACME server to a signed POST attempt. -/
inductive ServerReply where
  | ok (body : String) (replayNonce : String)
  | badNonce (freshNonce : String)
  | acmeError (ptype : String) (pdetail : String) (status : Nat)
  | transient
  deriving DecidableEq, Repr

/-- Modelled from the spec: the signed-POST loop of the ACME
Directory/Nonce Client (section 4.2); the Python client is not among the
provided sources.  The arguments are the hard cap on total
attempts (`fuel`, first), the nonce the current attempt is signed with,
the server's successive replies, and the exponential-backoff retry
budget (consumed only by transient failures, last).  A `badNonce` reply causes a
retry re-signed with the nonce carried by that reply, without consuming
the backoff budget; any other 4xx ACME problem document is surfaced as
`ACMEProtocolError` with no retry.  Returns the result and the nonce used
by each attempt, in order. -/
def postWithRetry : Nat → String → List ServerReply → Nat →
    Except CertError String × List String
  | 0, _, _, _ => (.error .hardCapExceeded, [])
  | _ + 1, n, [], _ => (.error .networkError, [n])
  | _ + 1, n, .ok body _ :: _, _ => (.ok body, [n])
  | f + 1, n, .badNonce n' :: rest, b =>
      let p := postWithRetry f n' rest b
      (p.1, n :: p.2)
  | _ + 1, n, .acmeError t d s :: _, _ => (.error (.acmeProtocol t d s), [n])
  | f + 1, n, .transient :: rest, b + 1 =>
      let p := postWithRetry f n rest b
      (p.1, n :: p.2)
  | _ + 1, n, .transient :: _, 0 => (.error .retriesExhausted, [n])

/- ### The Nonce Client's session state -/

/-- One protocol event seen by the Nonce Client in a session: the engine
signs and sends a request (consuming the cached nonce), or a response
arrives, optionally carrying a `Replay-Nonce` header. -/
inductive NEvent where
  | sign
  | resp (replayNonce : Option String)
  deriving DecidableEq, Repr

/-- Modelled from the spec: the Nonce is "a single mutable string held by
the Nonce Client; replaced after every response that carries a fresh
Replay-Nonce header; consumed (cleared) by the next signed request".  The
state keeps the cached nonce together with the position of the response
event that provided it, and the log of signed requests, newest first, as
(sign position, providing-response position, nonce value). -/
structure NState where
  pos : Nat
  cached : Option (Nat × String)
  signed : List (Nat × Nat × String)
  deriving DecidableEq, Repr

/-- One step of the Nonce Client. -/
def nstep (s : NState) (e : NEvent) : NState :=
  match e with
  | .sign =>
      match s.cached with
      | some qv =>
          { pos := s.pos + 1, cached := none,
            signed := (s.pos, qv.1, qv.2) :: s.signed }
      | none => { pos := s.pos + 1, cached := none, signed := s.signed }
  | .resp (some v) =>
      { pos := s.pos + 1, cached := some (s.pos, v), signed := s.signed }
  | .resp none => { pos := s.pos + 1, cached := s.cached, signed := s.signed }

/-- Run a session from the initial state (no cached nonce). -/
def nrun (evs : List NEvent) : NState :=
  evs.foldl nstep { pos := 0, cached := none, signed := [] }

/-- The signed requests of a session in chronological order. -/
def signedLog (evs : List NEvent) : List (Nat × Nat × String) :=
  (nrun evs).signed.reverse

/-- The Replay-Nonce carried by the response at position `i`, if any. -/
def respAt (evs : List NEvent) (i : Nat) : Option String :=
  match evs[i]? with
  | some (.resp (some v)) => some v
  | _ => none

/-- The server never issues the same Replay-Nonce twice. -/
def respFresh (evs : List NEvent) : Prop :=
  ∀ i, i < evs.length → ∀ j, j < evs.length → i ≠ j →
    respAt evs i = none ∨ respAt evs i ≠ respAt evs j

/-- Server freshness is checkable on concrete sessions. -/
instance (evs : List NEvent) : Decidable (respFresh evs) := by
  unfold respFresh
  infer_instance

/-- Session-state invariant tying a state to the event prefix that
produced it. -/
def goodState (pre : List NEvent) (s : NState) : Prop :=
  s.pos = pre.length ∧
  (∀ q v, s.cached = some (q, v) →
      q < s.pos ∧ respAt pre q = some v ∧ ∀ e ∈ s.signed, e.1 < q) ∧
  (∀ e ∈ s.signed, e.2.1 < e.1 ∧ e.1 < s.pos ∧ respAt pre e.2.1 = some e.2.2) ∧
  s.signed.Chain' (fun a b => b.1 < a.2.1) ∧
  s.signed.Pairwise (fun a b => b.2.1 < a.2.1)

/- ### The certificate HTTP server's token-isolated store -/

/-- Modelled from the spec/docs (`chattool serve cert`): the hash of the
request's authentication token is used as the tenant subdirectory name;
the server implementation is not among the provided sources. -/
def tokenDir (t : String) : String := b64url (sha256 (strBytes t))

/-- Handle an authenticated `/cert/apply` request: store the issued
bundle under the token's subdirectory. -/
def applyCertReq (t : String) (b : CertificateBundle) (fs : FS) : FS :=
  applyFS (saveBundle b (tokenDir t)) fs

/-- Handle an authenticated `/cert/list` request: the paths stored under
the token's subdirectory. -/
def listCerts (t : String) (fs : FS) : List (List String) :=
  (fs.filter (fun e => e.1.headD "" == tokenDir t)).map (fun e => e.1)

/-- Handle an authenticated `/cert/download` request for a domain. -/
def downloadCert (t domain : String) (fs : FS) : Option String :=
  fsLookup fs [tokenDir t, domain, "fullchain.pem"]

/- ### Concrete fixtures for witnesses -/

/-- A run in which the second domain's authorization goes `invalid`. -/
def envFailB : RunEnv :=
  { outcomes := [("a.com", .authValid), ("b.com", .authInvalid)],
    tokens := [("a.com", "tokA"), ("b.com", "tokB")],
    thumbprint := "thp", caChain := ["LEAF", "INT"],
    privKeyPEM := "KEY", notBefore := 0, notAfter := 90 }

/-- A run in which the only domain's authorization goes `invalid`. -/
def envInvalidA : RunEnv :=
  { outcomes := [("a.com", .authInvalid)],
    tokens := [("a.com", "tokA")],
    thumbprint := "thp", caChain := ["LEAF"],
    privKeyPEM := "KEY", notBefore := 0, notAfter := 90 }

/-- A run in which the only domain's authorization times out. -/
def envTimeoutA : RunEnv :=
  { outcomes := [("a.com", .authTimeout)],
    tokens := [("a.com", "tokA")],
    thumbprint := "thp", caChain := ["LEAF"],
    privKeyPEM := "KEY", notBefore := 0, notAfter := 90 }

/-- A fully successful two-domain run with a three-certificate chain. -/
def envOK : RunEnv :=
  { outcomes := [("a.com", .authValid), ("b.com", .authValid)],
    tokens := [("a.com", "tokA"), ("b.com", "tokB")],
    thumbprint := "thp", caChain := ["LEAF", "INT", "ROOT"],
    privKeyPEM := "KEY", notBefore := 0, notAfter := 90 }

/-- The bundle produced by the successful run `envOK`. -/
def bundleOK : CertificateBundle :=
  { domains := ["a.com", "b.com"], leafPEM := "LEAF", chainPEM := "INTROOT",
    fullchainPEM := "LEAFINTROOT", privateKeyPEM := "KEY",
    leafSANs := ["a.com", "b.com"], notBefore := 0, notAfter := 90 }

/-- A session trace: nonce n1 arrives, request signed with it, nonce n2
arrives, second request signed with it. -/
def evsW : List NEvent :=
  [.resp (some "n1"), .sign, .resp (some "n2"), .sign]

/-- Decidable equality of issuance results (for concrete evaluation). -/
instance : DecidableEq (Except CertError CertificateBundle) := fun x y =>
  match x, y with
  | .ok a, .ok b =>
      if h : a = b then isTrue (by rw [h])
      else isFalse (fun hh => by cases hh; exact h rfl)
  | .error a, .error b =>
      if h : a = b then isTrue (by rw [h])
      else isFalse (fun hh => by cases hh; exact h rfl)
  | .ok _, .error _ => isFalse (fun hh => by cases hh)
  | .error _, .ok _ => isFalse (fun hh => by cases hh)

/- ### Helper lemmas -/

theorem concatAll_cons (s : String) (l : List String) :
    concatAll (s :: l) = s ++ concatAll l := rfl

theorem applyDNS_append (l1 l2 : List Effect) (s : DNSState) :
    applyDNS (l1 ++ l2) s = applyDNS l2 (applyDNS l1 s) := by
  induction l1 generalizing s with
  | nil => rfl
  | cons e rest ih => cases e <;> simp [applyDNS, ih]

theorem applyDNS_saveBundle (b : CertificateBundle) (dir : String) (s : DNSState) :
    applyDNS (saveBundle b dir) s = s := by
  simp [saveBundle, certFiles, writeAtomic, applyDNS]

theorem applyDNS_publish (env : RunEnv) (domains : List String) (s : DNSState) :
    applyDNS (publishEffects env domains) s =
      (challengeRecords env domains).reverse ++ s := by
  induction domains generalizing s with
  | nil => rfl
  | cons d ds ih =>
      simp only [publishEffects, challengeRecords, List.map_cons, applyDNS,
        List.reverse_cons, List.append_assoc, List.singleton_append]
      simp only [publishEffects, challengeRecords] at ih
      rw [ih]

theorem applyDNS_withdraw_clears (env : RunEnv) (domains : List String) :
    ∀ s : DNSState, (∀ r ∈ s, r ∈ challengeRecords env domains) →
      applyDNS (withdrawEffects env domains) s = [] := by
  induction domains with
  | nil =>
      intro s hs
      cases s with
      | nil => rfl
      | cons r rest =>
          exact absurd (hs r (List.mem_cons_self r rest))
            (by simp [challengeRecords])
  | cons d ds ih =>
      intro s hs
      simp only [withdrawEffects, List.map_cons, applyDNS]
      apply ih
      intro r hr
      have hmem := List.mem_filter.mp hr
      have h2 : r ≠ (challengeFqdn d, txtValue (tokenOf env d) env.thumbprint) := by
        simpa using hmem.2
      have h1 := hs r hmem.1
      simp only [challengeRecords, List.map_cons, List.mem_cons] at h1
      rcases h1 with h1 | h1
      · exact absurd h1 h2
      · simpa [challengeRecords] using h1

theorem trace_wd_pub (env : RunEnv) (domains : List String) :
    applyDNS (withdrawEffects env domains)
      (applyDNS (publishEffects env domains) []) = [] := by
  rw [applyDNS_publish]
  apply applyDNS_withdraw_clears
  intro r hr
  simpa using List.mem_reverse.mp (by simpa using hr)

/- ### Claims -/

/-- C2: for every issuance run — success, failure or cancellation —
after `issueOrRenew` returns, no `_acme-challenge.*` TXT record created
by that run remains at the DNS Provider: interpreting the run's trace
against an empty provider state leaves an empty provider state. -/
theorem C2_cleanup (domains : List String) (certDir : String) (env : RunEnv) :
    applyDNS (issueOrRenew domains certDir env).2 [] = [] := by
  cases h : firstFailure env domains with
  | some d =>
      simp only [issueOrRenew, h]
      rw [applyDNS_append]
      exact trace_wd_pub env domains
  | none =>
      cases hc : env.caChain with
      | nil =>
          simp only [issueOrRenew, h, hc]
          rw [applyDNS_append]
          exact trace_wd_pub env domains
      | cons leaf rest =>
          simp only [issueOrRenew, h, hc]
          rw [List.append_assoc, applyDNS_append, applyDNS_append,
            trace_wd_pub env domains, applyDNS_saveBundle]

/-- C1: all-or-nothing SAN issuance — if any requested domain's
authorization terminates `invalid`, `issueOrRenew` fails and returns no
bundle; and any returned bundle covers exactly the requested domain set,
never a strict subset. -/
theorem C1_all_or_nothing (domains : List String) (certDir : String) (env : RunEnv) :
    ((∃ d ∈ domains, outcomeOf env d = AuthOutcome.authInvalid) →
      ∃ e, (issueOrRenew domains certDir env).1 = .error e) ∧
    (∀ b, (issueOrRenew domains certDir env).1 = .ok b → b.domains = domains) := by
  constructor
  · rintro ⟨d, hd, hinv⟩
    cases h : firstFailure env domains with
    | some d' => exact ⟨failureError env d', by simp [issueOrRenew, h]⟩
    | none =>
        exfalso
        have hall := List.find?_eq_none.mp h d hd
        rw [hinv] at hall
        exact hall rfl
  · intro b hb
    cases h : firstFailure env domains with
    | some d' => simp [issueOrRenew, h] at hb
    | none =>
        cases hc : env.caChain with
        | nil => simp [issueOrRenew, h, hc] at hb
        | cons leaf rest =>
            simp only [issueOrRenew, h, hc, Except.ok.injEq] at hb
            rw [← hb]

/-- C8: self-contained ACME implementation — no issuance run ever
executes an external ACME client binary: the effect trace of
`issueOrRenew` never contains an `execBinary` effect. -/
theorem C8_self_contained (domains : List String) (certDir : String)
    (env : RunEnv) (cmd : String) :
    Effect.execBinary cmd ∉ (issueOrRenew domains certDir env).2 := by
  have hpub : Effect.execBinary cmd ∉ publishEffects env domains := by
    simp [publishEffects]
  have hwd : Effect.execBinary cmd ∉ withdrawEffects env domains := by
    simp [withdrawEffects]
  cases h : firstFailure env domains with
  | some d => simp [issueOrRenew, h, hpub, hwd]
  | none =>
      cases hc : env.caChain with
      | nil => simp [issueOrRenew, h, hc, hpub, hwd]
      | cons leaf rest =>
          have hsave : ∀ b dir, Effect.execBinary cmd ∉ saveBundle b dir := by
            intro b dir
            simp [saveBundle, certFiles, writeAtomic]
          simp [issueOrRenew, h, hc, hpub, hwd, hsave]

/-- C8 witness: the two-domain run of `envOK` never invokes certbot. -/
theorem C8_self_contained_witness :
    Effect.execBinary "certbot" ∉ (issueOrRenew ["a.com", "b.com"] "certs" envOK).2 :=
  C8_self_contained ["a.com", "b.com"] "certs" envOK "certbot"

/-- C9 counterexample: the caller-facing entry point `run_once` returns a
bare boolean, so two runs failing with different typed errors are
indistinguishable to the caller — refuting that the entry point returns
`CertificateBundle | Error`. -/
theorem C9_counterexample :
    run_once ["a.com"] "certs" envInvalidA = run_once ["a.com"] "certs" envTimeoutA ∧
    (issueOrRenew ["a.com"] "certs" envInvalidA).1 ≠
      (issueOrRenew ["a.com"] "certs" envTimeoutA).1 := by
  constructor
  · rfl
  · decide

/-- C9 (amended): `run_once` returns a boolean success flag — `true`
exactly when the underlying issuance succeeded with a bundle. -/
theorem C9_entry_returns_bool (domains : List String) (certDir : String) (env : RunEnv) :
    run_once domains certDir env = true ↔
      ∃ b, (issueOrRenew domains certDir env).1 = .ok b := by
  unfold run_once
  cases h : (issueOrRenew domains certDir env).1 <;> simp

/-- C6: bundle split round-trip — for every successful issuance, the
first downloaded PEM block is the leaf, the concatenation of the rest is
the chain, `fullchainPEM` equals `leafPEM ++ chainPEM` byte-for-byte, and
the leaf certificate's SAN set is exactly the requested domain list. -/
theorem C6_bundle_roundtrip (domains : List String) (certDir : String)
    (env : RunEnv) (b : CertificateBundle)
    (hb : (issueOrRenew domains certDir env).1 = .ok b) :
    b.fullchainPEM = b.leafPEM ++ b.chainPEM ∧
    b.leafPEM = env.caChain.headD "" ∧
    b.chainPEM = concatAll env.caChain.tail ∧
    b.leafSANs = domains := by
  cases h : firstFailure env domains with
  | some d => simp [issueOrRenew, h] at hb
  | none =>
      cases hc : env.caChain with
      | nil => simp [issueOrRenew, h, hc] at hb
      | cons leaf rest =>
          simp only [issueOrRenew, h, hc, Except.ok.injEq] at hb
          rw [← hb]
          exact ⟨concatAll_cons leaf rest, rfl, rfl, rfl⟩

/-- C6 witness: the successful run `envOK` satisfies the round-trip. -/
theorem C6_bundle_roundtrip_witness :
    (issueOrRenew ["a.com", "b.com"] "certs" envOK).1 = .ok bundleOK ∧
    bundleOK.fullchainPEM = bundleOK.leafPEM ++ bundleOK.chainPEM := by
  refine ⟨by decide, ?_⟩
  exact (C6_bundle_roundtrip ["a.com", "b.com"] "certs" envOK bundleOK (by decide)).1

/-- C7: DNS-01 digest computation — for every requested domain, the run
publishes a TXT record at `_acme-challenge.<domain>` whose value is
`base64url(SHA-256(keyAuthorization))`, where
`keyAuthorization = token ++ "." ++ base64url(SHA-256(thumbprint))`. -/
theorem C7_dns01_digest (domains : List String) (certDir : String)
    (env : RunEnv) (d : String) (hd : d ∈ domains) :
    Effect.addTXT (challengeFqdn d)
        (b64url (sha256 (strBytes (keyAuthorization (tokenOf env d) env.thumbprint))))
      ∈ (issueOrRenew domains certDir env).2 ∧
    keyAuthorization (tokenOf env d) env.thumbprint =
      tokenOf env d ++ "." ++ b64url (sha256 (strBytes env.thumbprint)) := by
  refine ⟨?_, rfl⟩
  have hpub : Effect.addTXT (challengeFqdn d) (txtValue (tokenOf env d) env.thumbprint)
      ∈ publishEffects env domains := List.mem_map_of_mem _ hd
  have hval : txtValue (tokenOf env d) env.thumbprint =
      b64url (sha256 (strBytes (keyAuthorization (tokenOf env d) env.thumbprint))) := rfl
  rw [← hval]
  cases h : firstFailure env domains with
  | some d' =>
      simp only [issueOrRenew, h]
      exact List.mem_append_left _ hpub
  | none =>
      cases hc : env.caChain with
      | nil =>
          simp only [issueOrRenew, h, hc]
          exact List.mem_append_left _ hpub
      | cons leaf rest =>
          simp only [issueOrRenew, h, hc]
          exact List.mem_append_left _ (List.mem_append_left _ hpub)

/-- C7 witness: domain `a.com` of the `envOK` run. -/
theorem C7_dns01_digest_witness :
    ("a.com" ∈ (["a.com", "b.com"] : List String)) ∧
    Effect.addTXT (challengeFqdn "a.com")
        (b64url (sha256 (strBytes (keyAuthorization (tokenOf envOK "a.com") envOK.thumbprint))))
      ∈ (issueOrRenew ["a.com", "b.com"] "certs" envOK).2 :=
  ⟨by decide,
   (C7_dns01_digest ["a.com", "b.com"] "certs" envOK "a.com" (by decide)).1⟩

/-- C4: `badNonce` versus protocol-error handling — a `badNonce` reply is
retried re-signed with the nonce carried by the error response without
consuming the backoff budget (only the hard cap decreases); if that retry
succeeds the caller sees success; any other 4xx ACME problem document is
surfaced as `ACMEProtocolError{type, detail, status}` with no retry; and
the hard cap still bounds total attempts. -/
theorem C4_badNonce_policy (n n' body rn t d : String) (s : Nat)
    (replies rest : List ServerReply) (b f : Nat) :
    postWithRetry (f + 1) n (.badNonce n' :: rest) b =
      ((postWithRetry f n' rest b).1, n :: (postWithRetry f n' rest b).2) ∧
    postWithRetry (f + 2) n (.badNonce n' :: .ok body rn :: rest) b =
      (.ok body, [n, n']) ∧
    postWithRetry (f + 1) n (.acmeError t d s :: replies) b =
      (.error (.acmeProtocol t d s), [n]) ∧
    postWithRetry 0 n replies b = (.error .hardCapExceeded, []) :=
  ⟨rfl, rfl, rfl, rfl⟩

/- ### File-system lemmas for the certificate store -/

theorem fsLookup_cons (e : List String × String) (fs : FS) (p : List String) :
    fsLookup (e :: fs) p = if e.1 = p then some e.2 else fsLookup fs p := by
  by_cases h : e.1 = p
  · simp [fsLookup, List.find?_cons_of_pos, h]
  · rw [if_neg h]
    unfold fsLookup
    rw [List.find?_cons_of_neg]
    simpa using h

theorem fsLookup_filter_ne (fs : FS) (p q : List String) (h : q ≠ p) :
    fsLookup (fs.filter (fun e => e.1 != p)) q = fsLookup fs q := by
  induction fs with
  | nil => rfl
  | cons e rest ih =>
      by_cases hp : e.1 = p
      · have hq : e.1 ≠ q := by rw [hp]; exact fun hh => h hh.symm
        rw [List.filter_cons_of_neg (by simpa using hp), ih,
          fsLookup_cons, if_neg hq]
      · rw [List.filter_cons_of_pos (by simpa using hp),
          fsLookup_cons, fsLookup_cons, ih]

theorem fsLookup_fsSet (fs : FS) (p : List String) (c : String) (q : List String) :
    fsLookup (fsSet fs p c) q = if q = p then some c else fsLookup fs q := by
  unfold fsSet
  rw [fsLookup_cons]
  by_cases h : q = p
  · simp [h]
  · rw [if_neg (fun hh => h hh.symm), if_neg h, fsLookup_filter_ne fs p q h]

theorem fsLookup_fsErase_self (fs : FS) (p : List String) :
    fsLookup (fsErase fs p) p = none := by
  have hfind : (fsErase fs p).find? (fun e => e.1 == p) = none := by
    rw [List.find?_eq_none]
    intro a ha
    have := (List.mem_filter.mp ha).2
    simpa using this
  unfold fsLookup
  rw [hfind]
  rfl

theorem applyFS_writeAtomic (dir : List String) (n c : String) (fs : FS) :
    applyFS (writeAtomic dir n c) fs =
      fsSet (fsErase (fsSet fs (dir ++ [n ++ ".tmp"]) c) (dir ++ [n ++ ".tmp"]))
        (dir ++ [n]) c := by
  have hlook : fsLookup (fsSet fs (dir ++ [n ++ ".tmp"]) c) (dir ++ [n ++ ".tmp"]) =
      some c := by rw [fsLookup_fsSet, if_pos rfl]
  simp only [writeAtomic, applyFS, fsRename, hlook]

theorem lookup_after_atomic (dir : List String) (n c : String) (fs : FS)
    (q : List String) :
    fsLookup (applyFS (writeAtomic dir n c) fs) q =
      if q = dir ++ [n] then some c
      else if q = dir ++ [n ++ ".tmp"] then none
      else fsLookup fs q := by
  rw [applyFS_writeAtomic, fsLookup_fsSet]
  by_cases hq : q = dir ++ [n]
  · rw [if_pos hq, if_pos hq]
  · rw [if_neg hq, if_neg hq]
    by_cases ht : q = dir ++ [n ++ ".tmp"]
    · rw [if_pos ht, ht]
      exact fsLookup_fsErase_self _ _
    · rw [if_neg ht]
      unfold fsErase
      rw [fsLookup_filter_ne _ _ _ ht, fsLookup_fsSet, if_neg ht]

theorem applyFS_append (l1 l2 : List Effect) (fs : FS) :
    applyFS (l1 ++ l2) fs = applyFS l2 (applyFS l1 fs) := by
  induction l1 generalizing fs with
  | nil => rfl
  | cons e rest ih => cases e <;> simp [applyFS, ih]

theorem saveBundle_unfold (b : CertificateBundle) (baseDir : String) :
    saveBundle b baseDir =
      writeAtomic [baseDir, primaryDomain b.domains] "cert.pem" b.leafPEM ++
      (writeAtomic [baseDir, primaryDomain b.domains] "chain.pem" b.chainPEM ++
      (writeAtomic [baseDir, primaryDomain b.domains] "fullchain.pem" b.fullchainPEM ++
      (writeAtomic [baseDir, primaryDomain b.domains] "privkey.pem" b.privateKeyPEM ++ []))) := by
  simp [saveBundle, certFiles, writeAtomic]

theorem saveBundle_lookup (b : CertificateBundle) (baseDir : String)
    (fs : FS) (q : List String) :
    fsLookup (applyFS (saveBundle b baseDir) fs) q =
      if q = [baseDir, primaryDomain b.domains, "privkey.pem"] then some b.privateKeyPEM
      else if q = [baseDir, primaryDomain b.domains, "privkey.pem" ++ ".tmp"] then none
      else if q = [baseDir, primaryDomain b.domains, "fullchain.pem"] then some b.fullchainPEM
      else if q = [baseDir, primaryDomain b.domains, "fullchain.pem" ++ ".tmp"] then none
      else if q = [baseDir, primaryDomain b.domains, "chain.pem"] then some b.chainPEM
      else if q = [baseDir, primaryDomain b.domains, "chain.pem" ++ ".tmp"] then none
      else if q = [baseDir, primaryDomain b.domains, "cert.pem"] then some b.leafPEM
      else if q = [baseDir, primaryDomain b.domains, "cert.pem" ++ ".tmp"] then none
      else fsLookup fs q := by
  rw [saveBundle_unfold, applyFS_append, applyFS_append, applyFS_append,
    List.append_nil, lookup_after_atomic, lookup_after_atomic,
    lookup_after_atomic, lookup_after_atomic]
  rfl

/-- C5: certificate store layout — `save` establishes exactly the four
files `cert.pem`, `chain.pem`, `fullchain.pem`, `privkey.pem` under the
single directory `baseDir/<primary-domain>/`, replacing any pre-existing
files; every direct write of the run targets a temporary `.tmp` path
(the final names are established only by rename), no temporary file
survives, and starting from an empty file system exactly the four final
paths exist afterwards. -/
theorem C5_store_layout (b : CertificateBundle) (baseDir : String) (fs : FS) :
    (fsLookup (applyFS (saveBundle b baseDir) fs)
        [baseDir, primaryDomain b.domains, "cert.pem"] = some b.leafPEM ∧
     fsLookup (applyFS (saveBundle b baseDir) fs)
        [baseDir, primaryDomain b.domains, "chain.pem"] = some b.chainPEM ∧
     fsLookup (applyFS (saveBundle b baseDir) fs)
        [baseDir, primaryDomain b.domains, "fullchain.pem"] = some b.fullchainPEM ∧
     fsLookup (applyFS (saveBundle b baseDir) fs)
        [baseDir, primaryDomain b.domains, "privkey.pem"] = some b.privateKeyPEM) ∧
    (fsLookup (applyFS (saveBundle b baseDir) fs)
        [baseDir, primaryDomain b.domains, "cert.pem.tmp"] = none ∧
     fsLookup (applyFS (saveBundle b baseDir) fs)
        [baseDir, primaryDomain b.domains, "chain.pem.tmp"] = none ∧
     fsLookup (applyFS (saveBundle b baseDir) fs)
        [baseDir, primaryDomain b.domains, "fullchain.pem.tmp"] = none ∧
     fsLookup (applyFS (saveBundle b baseDir) fs)
        [baseDir, primaryDomain b.domains, "privkey.pem.tmp"] = none) ∧
    (∀ p c, Effect.writeFile p c ∈ saveBundle b baseDir →
        ∃ n, p = [baseDir, primaryDomain b.domains, n ++ ".tmp"]) ∧
    (∀ p, (fsLookup (applyFS (saveBundle b baseDir) []) p).isSome ↔
        (p = [baseDir, primaryDomain b.domains, "cert.pem"] ∨
         p = [baseDir, primaryDomain b.domains, "chain.pem"] ∨
         p = [baseDir, primaryDomain b.domains, "fullchain.pem"] ∨
         p = [baseDir, primaryDomain b.domains, "privkey.pem"])) := by
  refine ⟨⟨?_, ?_, ?_, ?_⟩, ⟨?_, ?_, ?_, ?_⟩, ?_, ?_⟩
  · rw [saveBundle_lookup]; simp
  · rw [saveBundle_lookup]; simp
  · rw [saveBundle_lookup]; simp
  · rw [saveBundle_lookup]; simp
  · rw [saveBundle_lookup]; simp
  · rw [saveBundle_lookup]; simp
  · rw [saveBundle_lookup]; simp
  · rw [saveBundle_lookup]; simp
  · intro p c hp
    rw [saveBundle_unfold] at hp
    simp [writeAtomic] at hp
    rcases hp with ⟨hp, -⟩ | ⟨hp, -⟩ | ⟨hp, -⟩ | ⟨hp, -⟩
    · exact ⟨"cert.pem", by simp [hp]⟩
    · exact ⟨"chain.pem", by simp [hp]⟩
    · exact ⟨"fullchain.pem", by simp [hp]⟩
    · exact ⟨"privkey.pem", by simp [hp]⟩
  · intro p
    rw [saveBundle_lookup]
    split_ifs with h1 h2 h3 h4 h5 h6 h7 h8 <;> simp_all [fsLookup]

/-- C5 witness: a concrete write of the run targets a `.tmp` path. -/
theorem C5_store_layout_witness :
    (Effect.writeFile ["certs", "a.com", "cert.pem.tmp"] "LEAF"
        ∈ saveBundle bundleOK "certs") ∧
    ∃ n, (["certs", "a.com", "cert.pem.tmp"] : List String) =
      ["certs", "a.com", n ++ ".tmp"] :=
  ⟨by decide,
   (C5_store_layout bundleOK "certs" []).2.2.1
     ["certs", "a.com", "cert.pem.tmp"] "LEAF" (by decide)⟩

/- ### Tenant-isolation lemmas for the certificate server -/

theorem filter_tenant_filter_ne (t : String) (p : List String) (fs : FS)
    (h : p.headD "" ≠ tokenDir t) :
    (fs.filter (fun e => e.1 != p)).filter
        (fun e => e.1.headD "" == tokenDir t) =
      fs.filter (fun e => e.1.headD "" == tokenDir t) := by
  rw [List.filter_filter]
  apply List.filter_congr
  intro a _
  by_cases hq : (a.1.headD "" == tokenDir t) = true
  · have hne : (a.1 != p) = true := by
      rw [bne_iff_ne]
      intro hap
      rw [hap] at hq
      exact h (by simpa using hq)
    rw [hq, hne]
    rfl
  · rw [Bool.not_eq_true] at hq
    rw [hq]
    rfl

theorem listCerts_fsSet (t : String) (fs : FS) (p : List String) (c : String)
    (h : p.headD "" ≠ tokenDir t) :
    listCerts t (fsSet fs p c) = listCerts t fs := by
  unfold listCerts fsSet
  rw [List.filter_cons_of_neg (by simpa using h), filter_tenant_filter_ne t p fs h]

theorem listCerts_fsErase (t : String) (fs : FS) (p : List String)
    (h : p.headD "" ≠ tokenDir t) :
    listCerts t (fsErase fs p) = listCerts t fs := by
  unfold listCerts fsErase
  rw [filter_tenant_filter_ne t p fs h]

theorem listCerts_writeAtomic (t a : String) (dir' : List String) (n c : String)
    (fs : FS) (h : a ≠ tokenDir t) :
    listCerts t (applyFS (writeAtomic (a :: dir') n c) fs) = listCerts t fs := by
  rw [applyFS_writeAtomic,
    listCerts_fsSet t _ _ _ (by simpa using h),
    listCerts_fsErase t _ _ (by simpa using h),
    listCerts_fsSet t _ _ _ (by simpa using h)]

/-- C10: token-based tenant noninterference — certificates stored by a
request authenticated with token `t1` live under `t1`'s hash-derived
subdirectory, and neither `/cert/list` nor `/cert/download`
authenticated with a token `t2` of a different hash can observe or
retrieve them: both observations are unchanged by `t1`'s apply. -/
theorem C10_token_isolation (t1 t2 : String) (b : CertificateBundle) (fs : FS)
    (h : tokenDir t1 ≠ tokenDir t2) :
    listCerts t2 (applyCertReq t1 b fs) = listCerts t2 fs ∧
    (∀ d, downloadCert t2 d (applyCertReq t1 b fs) = downloadCert t2 d fs) := by
  constructor
  · unfold applyCertReq
    rw [saveBundle_unfold, applyFS_append, applyFS_append, applyFS_append,
      List.append_nil,
      listCerts_writeAtomic t2 (tokenDir t1) [primaryDomain b.domains]
        "privkey.pem" b.privateKeyPEM _ h,
      listCerts_writeAtomic t2 (tokenDir t1) [primaryDomain b.domains]
        "fullchain.pem" b.fullchainPEM _ h,
      listCerts_writeAtomic t2 (tokenDir t1) [primaryDomain b.domains]
        "chain.pem" b.chainPEM _ h,
      listCerts_writeAtomic t2 (tokenDir t1) [primaryDomain b.domains]
        "cert.pem" b.leafPEM _ h]
  · intro d
    unfold downloadCert applyCertReq
    rw [saveBundle_lookup]
    have hne : ∀ x : String,
        ([tokenDir t2, d, "fullchain.pem"] : List String) ≠
          [tokenDir t1, primaryDomain b.domains, x] := by
      intro x hx
      exact h (List.cons.inj hx).1.symm
    rw [if_neg (hne _), if_neg (hne _), if_neg (hne _), if_neg (hne _),
      if_neg (hne _), if_neg (hne _), if_neg (hne _), if_neg (hne _)]

/-- C10 witness: two concrete tokens with distinct hash directories. -/
theorem C10_token_isolation_witness :
    tokenDir "alice" ≠ tokenDir "bob" ∧
    listCerts "bob" (applyCertReq "alice" bundleOK []) = listCerts "bob" [] :=
  ⟨by decide, (C10_token_isolation "alice" "bob" bundleOK [] (by decide)).1⟩

/- ### Nonce-session lemmas -/

theorem respAt_append (pre : List NEvent) (e : NEvent) (q : Nat)
    (h : q < pre.length) : respAt (pre ++ [e]) q = respAt pre q := by
  unfold respAt
  rw [List.getElem?_append, if_pos h]

theorem respAt_concat_resp (pre : List NEvent) (v : String) :
    respAt (pre ++ [NEvent.resp (some v)]) pre.length = some v := by
  unfold respAt
  rw [List.getElem?_concat_length]

theorem goodState_step (pre : List NEvent) (s : NState) (e : NEvent)
    (hs : goodState pre s) : goodState (pre ++ [e]) (nstep s e) := by
  obtain ⟨hpos, hcache, hsig, hchain, hpair⟩ := hs
  have hlen : (pre ++ [e]).length = pre.length + 1 := by simp
  cases e with
  | sign =>
      cases hc : s.cached with
      | none =>
          have hstep : nstep s NEvent.sign =
              { pos := s.pos + 1, cached := none, signed := s.signed } := by
            simp [nstep, hc]
          rw [hstep]
          refine ⟨?_, ?_, ?_, ?_, ?_⟩
          · show s.pos + 1 = (pre ++ [NEvent.sign]).length
            omega
          · intro q v hq
            simp at hq
          · intro x hx
            obtain ⟨h1, h2, h3⟩ := hsig x hx
            refine ⟨h1, ?_, ?_⟩
            · show x.1 < s.pos + 1
              omega
            · rw [respAt_append pre _ _ (by omega)]
              exact h3
          · exact hchain
          · exact hpair
      | some qv =>
          obtain ⟨hq1, hq2, hq3⟩ := hcache qv.1 qv.2 (by rw [hc])
          have hstep : nstep s NEvent.sign =
              { pos := s.pos + 1, cached := none,
                signed := (s.pos, qv.1, qv.2) :: s.signed } := by
            simp [nstep, hc]
          rw [hstep]
          refine ⟨?_, ?_, ?_, ?_, ?_⟩
          · show s.pos + 1 = (pre ++ [NEvent.sign]).length
            omega
          · intro q v hq
            simp at hq
          · intro x hx
            rcases List.mem_cons.mp hx with hx | hx
            · subst hx
              refine ⟨?_, ?_, ?_⟩
              · show qv.1 < s.pos
                exact hq1
              · show s.pos < s.pos + 1
                omega
              · show respAt (pre ++ [NEvent.sign]) qv.1 = some qv.2
                rw [respAt_append pre _ _ (by omega)]
                exact hq2
            · obtain ⟨h1, h2, h3⟩ := hsig x hx
              refine ⟨h1, ?_, ?_⟩
              · show x.1 < s.pos + 1
                omega
              · rw [respAt_append pre _ _ (by omega)]
                exact h3
          · rw [List.chain'_cons']
            exact ⟨fun y hy => hq3 y (List.mem_of_mem_head? hy), hchain⟩
          · rw [List.pairwise_cons]
            exact ⟨fun y hy => lt_trans (hsig y hy).1 (hq3 y hy), hpair⟩
  | resp o =>
      cases o with
      | none =>
          have hstep : nstep s (NEvent.resp none) =
              { pos := s.pos + 1, cached := s.cached, signed := s.signed } := rfl
          rw [hstep]
          refine ⟨?_, ?_, ?_, ?_, ?_⟩
          · show s.pos + 1 = (pre ++ [NEvent.resp none]).length
            omega
          · intro q v hq
            obtain ⟨h1, h2, h3⟩ := hcache q v hq
            refine ⟨?_, ?_, h3⟩
            · show q < s.pos + 1
              omega
            · rw [respAt_append pre _ _ (by omega)]
              exact h2
          · intro x hx
            obtain ⟨h1, h2, h3⟩ := hsig x hx
            refine ⟨h1, ?_, ?_⟩
            · show x.1 < s.pos + 1
              omega
            · rw [respAt_append pre _ _ (by omega)]
              exact h3
          · exact hchain
          · exact hpair
      | some v =>
          have hstep : nstep s (NEvent.resp (some v)) =
              { pos := s.pos + 1, cached := some (s.pos, v),
                signed := s.signed } := rfl
          rw [hstep]
          refine ⟨?_, ?_, ?_, ?_, ?_⟩
          · show s.pos + 1 = (pre ++ [NEvent.resp (some v)]).length
            omega
          · intro q w hq
            obtain ⟨hq1, hq2⟩ : s.pos = q ∧ v = w := by simpa using hq
            subst hq1
            subst hq2
            refine ⟨?_, ?_, ?_⟩
            · show s.pos < s.pos + 1
              omega
            · show respAt (pre ++ [NEvent.resp (some v)]) s.pos = some v
              rw [hpos]
              exact respAt_concat_resp pre v
            · exact fun x hx => (hsig x hx).2.1
          · intro x hx
            obtain ⟨h1, h2, h3⟩ := hsig x hx
            refine ⟨h1, ?_, ?_⟩
            · show x.1 < s.pos + 1
              omega
            · rw [respAt_append pre _ _ (by omega)]
              exact h3
          · exact hchain
          · exact hpair

theorem goodState_run (evs : List NEvent) : goodState evs (nrun evs) := by
  have hgen : ∀ (l : List NEvent) (pre : List NEvent) (s : NState),
      goodState pre s → goodState (pre ++ l) (l.foldl nstep s) := by
    intro l
    induction l with
    | nil => intro pre s hs; simpa using hs
    | cons e rest ih =>
        intro pre s hs
        have h2 := ih (pre ++ [e]) (nstep s e) (goodState_step pre s e hs)
        simpa using h2
  have h0 : goodState [] { pos := 0, cached := none, signed := [] } := by
    refine ⟨rfl, ?_, ?_, ?_, ?_⟩ <;> simp
  simpa using hgen evs [] _ h0

/-- C3: nonce monotonicity — in every session, the nonce signing each
request was provided by a Replay-Nonce response received strictly after
the previous signed request; and, provided the server never issues the
same Replay-Nonce twice, no two signed requests ever use the same
nonce. -/
theorem C3_nonce_monotonic (evs : List NEvent) :
    (signedLog evs).Chain' (fun a b => a.1 < b.2.1) ∧
    (respFresh evs →
      (signedLog evs).Pairwise (fun a b => a.2.2 ≠ b.2.2)) := by
  obtain ⟨hpos, hcache, hsig, hchain, hpair⟩ := goodState_run evs
  constructor
  · unfold signedLog
    rw [List.chain'_reverse]
    exact hchain
  · intro hf
    unfold signedLog
    rw [List.pairwise_reverse]
    refine hpair.imp_of_mem ?_
    intro a b ha hb hab
    obtain ⟨ha1, ha2, ha3⟩ := hsig a ha
    obtain ⟨hb1, hb2, hb3⟩ := hsig b hb
    have hfb := hf b.2.1 (by omega) a.2.1 (by omega) (by omega)
    rcases hfb with hnone | hne
    · rw [hb3] at hnone
      exact absurd hnone (by simp)
    · intro heq
      apply hne
      rw [hb3, ha3, heq]

/-- C3 witness: a concrete four-event session with fresh server
nonces. -/
theorem C3_nonce_monotonic_witness :
    respFresh evsW ∧
    (signedLog evsW).Pairwise (fun a b => a.2.2 ≠ b.2.2) :=
  ⟨by decide, (C3_nonce_monotonic evsW).2 (by decide)⟩

/-- C1 witness: the two-domain run `envFailB`, in which the authorization
of `b.com` terminates invalid, fails as a whole. -/
theorem C1_all_or_nothing_witness :
    (∃ d ∈ (["a.com", "b.com"] : List String),
        outcomeOf envFailB d = AuthOutcome.authInvalid) ∧
    ∃ e, (issueOrRenew ["a.com", "b.com"] "certs" envFailB).1 = .error e :=
  ⟨by decide,
   (C1_all_or_nothing ["a.com", "b.com"] "certs" envFailB).1 (by decide)⟩
